import Mathlib

/-!
Verification of the request-parsing and session/dispatch pipeline of a
minimal single-connection HTTP handler (`src/rust-http/src/client.rs`).

The text of a request buffer is modelled as a `List Char`.  The Rust string
operations used by `Client::parse_request` (`str::split` on `"\r\n\r\n"`,
`str::lines`, `str::split_whitespace`, `str::split('=')`, `str::trim`,
`str::starts_with`) are embedded as executable functions on `List Char`
below, and `Client::handle` is embedded as `handle` with the external
collaborators (session resolution `handle_cookie`, the JSON decoder and the
per-route handlers) passed in as function parameters.
-/

/-- Text, as a list of characters. -/
abbrev LC := List Char

/-- The blank-line marker `\r\n\r\n`. -/
def crlf2 : LC := ['\r', '\n', '\r', '\n']

/-- Rust `str::starts_with` for a string pattern: does `p` occur at the start of `s`? -/
def listStartsWith : LC → LC → Bool
  | [], _ => true
  | _ :: _, [] => false
  | p :: ps, c :: cs => if p = c then listStartsWith ps cs else false

/-- Does the character `sep` occur in `s`? -/
def containsChar (sep : Char) : LC → Bool
  | [] => false
  | c :: rest => if c = sep then true else containsChar sep rest

/-- The text before the first occurrence of `sep` (all of `s` if absent). -/
def beforeChar (sep : Char) : LC → LC
  | [] => []
  | c :: rest => if c = sep then [] else c :: beforeChar sep rest

/-- The text after the first occurrence of `sep` (`[]` if absent). -/
def afterChar (sep : Char) : LC → LC
  | [] => []
  | c :: rest => if c = sep then rest else afterChar sep rest

/-- Worker for `splitOnChar`: `acc` holds the current segment, reversed. -/
def splitOnCharAux (sep : Char) (acc : LC) : LC → List LC
  | [] => [acc.reverse]
  | c :: rest =>
    if c = sep then acc.reverse :: splitOnCharAux sep [] rest
    else splitOnCharAux sep (c :: acc) rest

/-- Rust `str::split(sep)` for a character separator: the (possibly empty)
segments of `s` between occurrences of `sep`. -/
def splitOnChar (sep : Char) (s : LC) : List LC := splitOnCharAux sep [] s

/-- Rust `str::trim`: remove leading and trailing whitespace (whitespace is
`Char.isWhitespace` — space, tab, CR, LF — the ASCII fragment of Rust's
`char::is_whitespace`). -/
def rustTrim (s : LC) : LC :=
  ((s.dropWhile Char.isWhitespace).reverse.dropWhile Char.isWhitespace).reverse

/-- Remove a single trailing `'\r'`, as `str::lines` does after removing the
trailing `'\n'` of a line. -/
def stripCr (l : LC) : LC := if l.getLast? = some '\r' then l.dropLast else l

/-- Worker for `rustLines`: `acc` holds the current line, reversed.  A line
ended by `'\n'` has one trailing `'\r'` removed; a final line not ended by
`'\n'` is emitted as is (and not at all if empty). -/
def rustLinesAux (acc : LC) : LC → List LC
  | [] => if acc = [] then [] else [acc.reverse]
  | '\n' :: rest => stripCr acc.reverse :: rustLinesAux [] rest
  | c :: rest => rustLinesAux (c :: acc) rest

/-- Rust `str::lines`. -/
def rustLines (s : LC) : List LC := rustLinesAux [] s

/-- Worker for `splitWs`: `acc` holds the current token, reversed. -/
def splitWsAux (acc : LC) : LC → List LC
  | [] => if acc = [] then [] else [acc.reverse]
  | c :: rest =>
    if c.isWhitespace then
      if acc = [] then splitWsAux [] rest
      else acc.reverse :: splitWsAux [] rest
    else splitWsAux (c :: acc) rest

/-- Rust `str::split_whitespace`: maximal runs of non-whitespace characters
(whitespace as in `rustTrim`). -/
def splitWs (s : LC) : List LC := splitWsAux [] s

/-- Locate the first occurrence of `\r\n\r\n` in `s`: `some (b, a)` with `b`
the text before it and `a` the text after it, `none` if it does not occur. -/
def splitFirstCrlf2 : LC → Option (LC × LC)
  | [] => none
  | c :: rest =>
    if listStartsWith crlf2 (c :: rest) then some ([], (c :: rest).drop 4)
    else
      match splitFirstCrlf2 rest with
      | none => none
      | some (b, a) => some (c :: b, a)

/-- Fuelled worker for `splitCrlf2`; the fuel only serves termination and is
always sufficient when it is at least `s.length`. -/
def splitCrlf2Fuel : Nat → LC → List LC
  | 0, s => [s]
  | fuel + 1, s =>
    match splitFirstCrlf2 s with
    | none => [s]
    | some (b, a) => b :: splitCrlf2Fuel fuel a

/-- Rust `str::split("\r\n\r\n")`: the segments of `s` between successive
non-overlapping occurrences of the blank-line marker. -/
def splitCrlf2 (s : LC) : List LC := splitCrlf2Fuel s.length s

/-- Does `\r\n\r\n` occur in `s`? -/
def hasCrlf2 : LC → Bool
  | [] => false
  | c :: rest => if listStartsWith crlf2 (c :: rest) then true else hasCrlf2 rest

/-- The text before the first `\r\n\r\n` (all of `s` if it does not occur). -/
def beforeCrlf2 : LC → LC
  | [] => []
  | c :: rest =>
    if listStartsWith crlf2 (c :: rest) then [] else c :: beforeCrlf2 rest

/-- The text after the first `\r\n\r\n` (`[]` if it does not occur). -/
def afterCrlf2 : LC → LC
  | [] => []
  | c :: rest =>
    if listStartsWith crlf2 (c :: rest) then (c :: rest).drop 4 else afterCrlf2 rest

/-- The literal header-name token `Cookie`. -/
def cookieLit : LC := "Cookie".data

/-- The parsed request: the record `HttpRequest` of `src/request.rs` (not
under `src/` here), whose five fields are pinned by the construction at the
end of `Client::parse_request`: method, path, remaining header lines, body
and the extracted session cookie. -/
structure HttpRequest where
  method : LC
  path : LC
  headers : List LC
  body : LC
  cookie : Option LC
deriving DecidableEq

/-- The embedding of `Client::parse_request` (lines 57-106 of `client.rs`), on the decoded
text of the read buffer.  Mirrors the source statement by statement:
`split("\r\n\r\n")` with two `next()` calls (each `unwrap_or_default`),
the emptiness check on the header part, `lines()` with one `next()` call,
`split_whitespace()` with two `next()` calls, the emptiness check on the
method, the linear scan for a header line starting with `Cookie`, and
`split('=').nth(1)` trimmed. -/
def parse_request (requestStr : LC) : Option HttpRequest :=
  let parts := splitCrlf2 requestStr
  let headerPart := parts.headD []
  if headerPart = [] then none
  else
    let bodyPart := (parts.drop 1).headD []
    let headerLines := rustLines headerPart
    let requestLine := headerLines.headD []
    let requestParts := splitWs requestLine
    let method := requestParts.headD []
    if method = [] then none
    else
      let path := (requestParts.drop 1).headD []
      let headers := headerLines.drop 1
      let cookieHeader := headers.find? (fun h => listStartsWith cookieLit h)
      let cookie := cookieHeader.bind
        (fun h => ((splitOnChar '=' h).get? 1).map rustTrim)
      some { method := method, path := path, headers := headers,
             body := bodyPart, cookie := cookie }

example : parse_request ("GET /get HTTP/1.1\r\nHost: localhost\r\nCookie: sessionId=1234\r\n\r\n".data) =
    some { method := "GET".data, path := "/get".data,
           headers := ["Host: localhost".data, "Cookie: sessionId=1234".data],
           body := [], cookie := some ("1234".data) } := by decide

/-- Wrapper of `parse_request` over the raw socket read: the 1024-byte buffer holds the
first `bytesRead` bytes of the stream, and `String::from_utf8_lossy`
(total, abstracted as `decode`) turns them into text. -/
def parse_request_bytes (decode : List Nat → LC) (buf : List Nat) (bytesRead : Nat) :
    Option HttpRequest :=
  parse_request (decode ((buf.take 1024).take bytesRead))

/-- The first line of the header section of an input buffer (the request
line that `parse_request` splits into method and path). -/
def requestLineOf (s : LC) : LC := (rustLines (beforeCrlf2 s)).headD []

/-- Modelled from the spec: the Response Model of `src/response.rs` (not
under `src/` here) — a status line, headers as a mapping from header name
to value with unique keys, and a body. -/
structure Response where
  statusLine : LC
  headers : List (LC × LC)
  body : LC
deriving DecidableEq

/-- Rust `HashMap::insert` on the header mapping: replace the value of an
existing key, otherwise add the binding. -/
def insertHeader : List (LC × LC) → LC → LC → List (LC × LC)
  | [], k, v => [(k, v)]
  | p :: rest, k, v => if p.1 = k then (k, v) :: rest else p :: insertHeader rest k v

/-- Lookup in the header mapping. -/
def headerLookup : List (LC × LC) → LC → Option LC
  | [], _ => none
  | p :: rest, k => if p.1 = k then some p.2 else headerLookup rest k

/-- The per-route handlers of `src/methods.rs` (external collaborators);
`J` is the type of decoded JSON values. -/
structure Handlers (J : Type) where
  hGet : LC → Response
  hPost : LC → Option J → Response
  hPut : LC → Option J → Response
  hDelete : LC → Response
  hPatch : LC → Option J → Response
  hMethodNotAllowed : Response

/-- The `match request.method.as_str()` dispatch of `Client::handle`
(lines 31-38 of `client.rs`). -/
def dispatch {J : Type} (H : Handlers J) (req : HttpRequest) (jsonBody : Option J) :
    Response :=
  if req.method = "GET".data then H.hGet req.path
  else if req.method = "POST".data then H.hPost req.path jsonBody
  else if req.method = "PUT".data then H.hPut req.path jsonBody
  else if req.method = "DELETE".data then H.hDelete req.path
  else if req.method = "PATCH".data then H.hPatch req.path jsonBody
  else H.hMethodNotAllowed

/-- The optional JSON body of `Client::handle` (lines 24-28):
`serde_json::from_str(..).ok()` (abstracted as `fromStr`) when the body is
non-empty, `None` otherwise. -/
def jsonBodyOf {J : Type} (fromStr : LC → Option J) (req : HttpRequest) : Option J :=
  if req.body ≠ [] then fromStr req.body else none

/-- The name of the header stamped by `Client::handle`. -/
def scKey : LC := "Set-Cookie".data

/-- The value `sessionId=<id>; Path=/` stamped by `Client::handle`. -/
def scVal (sessionId : LC) : LC :=
  "sessionId=".data ++ sessionId ++ "; Path=/".data

/-- Line 41 of `client.rs`: insert `Set-Cookie: sessionId=<id>; Path=/`
into the response headers. -/
def stampSession (sessionId : LC) (r : Response) : Response :=
  { r with headers := insertHeader r.headers scKey (scVal sessionId) }

/-- Outcome of one connection: either the parse failed and nothing further
happened (no session resolved, no handler dispatched, no bytes written), or
the request completed with a resolved session id and a final response. -/
inductive ConnOutcome where
  | aborted
  | completed (sessionId : LC) (response : Response)
deriving DecidableEq

/-- The embedding of `Client::handle` (lines 16-54 of `client.rs`), on the decoded text of
the read buffer.  The external collaborators are parameters: `resolve` is
`Server::handle_cookie` (session resolution under the server lock),
`fromStr` is `serde_json::from_str(..).ok()`, and `H` holds the per-route
handlers.  A parse failure leaves the `if let` body unexecuted. -/
def handle {J : Type} (resolve : HttpRequest → LC) (fromStr : LC → Option J)
    (H : Handlers J) (input : LC) : ConnOutcome :=
  match parse_request input with
  | none => ConnOutcome.aborted
  | some req =>
    let sessionId := resolve req
    let jsonBody := jsonBodyOf fromStr req
    let response := dispatch H req jsonBody
    ConnOutcome.completed sessionId (stampSession sessionId response)

/-- Concrete handlers used to instantiate witnesses: each route returns a
response tagged with a distinct status line. -/
def tagHandlers : Handlers Unit :=
  { hGet := fun p => { statusLine := "get".data, headers := [], body := p }
    hPost := fun p _ => { statusLine := "post".data, headers := [], body := p }
    hPut := fun p _ => { statusLine := "put".data, headers := [], body := p }
    hDelete := fun p => { statusLine := "delete".data, headers := [], body := p }
    hPatch := fun p _ => { statusLine := "patch".data, headers := [], body := p }
    hMethodNotAllowed := { statusLine := "405".data, headers := [], body := [] } }

/-! ### Properties of the splitting primitives -/

lemma listStartsWith_decomp : ∀ p s : LC, listStartsWith p s = true →
    s = p ++ s.drop p.length := by
  intro p
  induction p with
  | nil => intro s _; simp
  | cons a ps ih =>
    intro s h
    cases s with
    | nil => simp [listStartsWith] at h
    | cons c cs =>
      simp only [listStartsWith] at h
      split at h
      · rename_i hac
        subst hac
        have := ih cs h
        simp only [List.cons_append, List.length_cons, List.drop_succ_cons]
        exact congrArg (a :: ·) this
      · exact absurd h (by simp)

lemma beforeCrlf2_of_not_has : ∀ s : LC, hasCrlf2 s = false → beforeCrlf2 s = s := by
  intro s
  induction s with
  | nil => intro _; rfl
  | cons c rest ih =>
    intro h
    simp only [hasCrlf2] at h
    simp only [beforeCrlf2]
    split at h
    · exact absurd h (by simp)
    · rename_i hsw
      rw [if_neg hsw, ih h]

lemma splitFirstCrlf2_none : ∀ s : LC, splitFirstCrlf2 s = none ↔ hasCrlf2 s = false := by
  intro s
  induction s with
  | nil => simp [splitFirstCrlf2, hasCrlf2]
  | cons c rest ih =>
    simp only [splitFirstCrlf2, hasCrlf2]
    split
    · simp
    · rw [← ih]
      cases hr : splitFirstCrlf2 rest with
      | none => simp
      | some p => cases p; simp

lemma splitFirstCrlf2_some : ∀ s b a : LC, splitFirstCrlf2 s = some (b, a) →
    hasCrlf2 s = true ∧ b = beforeCrlf2 s ∧ a = afterCrlf2 s := by
  intro s
  induction s with
  | nil => intro b a h; simp [splitFirstCrlf2] at h
  | cons c rest ih =>
    intro b a h
    simp only [splitFirstCrlf2] at h
    by_cases hsw : listStartsWith crlf2 (c :: rest) = true
    · rw [if_pos hsw] at h
      simp only [Option.some.injEq, Prod.mk.injEq] at h
      obtain ⟨hb, ha⟩ := h
      subst hb; subst ha
      refine ⟨by simp [hasCrlf2, hsw], by simp [beforeCrlf2, hsw], by simp [afterCrlf2, hsw]⟩
    · rw [if_neg hsw] at h
      cases hr : splitFirstCrlf2 rest with
      | none => rw [hr] at h; simp at h
      | some p =>
        cases p with
        | mk b' a' =>
          rw [hr] at h
          simp only [Option.some.injEq, Prod.mk.injEq] at h
          obtain ⟨hb, ha⟩ := h
          subst hb; subst ha
          obtain ⟨h1, h2, h3⟩ := ih b' a' hr
          refine ⟨by simp [hasCrlf2, hsw, h1], ?_, ?_⟩
          · simp only [beforeCrlf2]
            rw [if_neg hsw, ← h2]
          · simp only [afterCrlf2]
            rw [if_neg hsw, ← h3]

lemma splitFirstCrlf2_length : ∀ s b a : LC, splitFirstCrlf2 s = some (b, a) →
    a.length + 4 ≤ s.length := by
  intro s
  induction s with
  | nil => intro b a h; simp [splitFirstCrlf2] at h
  | cons c rest ih =>
    intro b a h
    simp only [splitFirstCrlf2] at h
    by_cases hsw : listStartsWith crlf2 (c :: rest) = true
    · rw [if_pos hsw] at h
      simp only [Option.some.injEq, Prod.mk.injEq] at h
      obtain ⟨_, ha⟩ := h
      subst ha
      have hd := listStartsWith_decomp crlf2 (c :: rest) hsw
      have hlen := congrArg List.length hd
      simp only [List.length_append] at hlen
      have h4 : crlf2.length = 4 := rfl
      rw [h4] at hd hlen
      omega
    · rw [if_neg hsw] at h
      cases hr : splitFirstCrlf2 rest with
      | none => rw [hr] at h; simp at h
      | some p =>
        cases p with
        | mk b' a' =>
          rw [hr] at h
          simp only [Option.some.injEq, Prod.mk.injEq] at h
          obtain ⟨_, ha⟩ := h
          subst ha
          have := ih b' a' hr
          simp only [List.length_cons]
          omega

lemma splitCrlf2Fuel_headD : ∀ (fuel : Nat) (s : LC), s.length ≤ fuel →
    (splitCrlf2Fuel fuel s).headD [] = beforeCrlf2 s := by
  intro fuel s hle
  cases fuel with
  | zero =>
    have : s = [] := by
      cases s with
      | nil => rfl
      | cons c rest => simp at hle
    subst this; rfl
  | succ fuel =>
    simp only [splitCrlf2Fuel]
    cases hr : splitFirstCrlf2 s with
    | none =>
      have := (splitFirstCrlf2_none s).mp hr
      simp [beforeCrlf2_of_not_has s this]
    | some p =>
      cases p with
      | mk b a =>
        obtain ⟨_, hb, _⟩ := splitFirstCrlf2_some s b a hr
        simp [hb]

lemma splitCrlf2Fuel_drop1 : ∀ (fuel : Nat) (s : LC), s.length ≤ fuel →
    ((splitCrlf2Fuel fuel s).drop 1).headD [] =
      if hasCrlf2 s then beforeCrlf2 (afterCrlf2 s) else [] := by
  intro fuel s hle
  cases fuel with
  | zero =>
    have : s = [] := by
      cases s with
      | nil => rfl
      | cons c rest => simp at hle
    subst this; rfl
  | succ fuel =>
    simp only [splitCrlf2Fuel]
    cases hr : splitFirstCrlf2 s with
    | none =>
      have := (splitFirstCrlf2_none s).mp hr
      simp [this]
    | some p =>
      cases p with
      | mk b a =>
        obtain ⟨hhas, _, ha⟩ := splitFirstCrlf2_some s b a hr
        have hlen := splitFirstCrlf2_length s b a hr
        have : a.length ≤ fuel := by omega
        simp only [List.drop_succ_cons, List.drop_zero, hhas, if_true]
        rw [splitCrlf2Fuel_headD fuel a this, ha]

lemma splitCrlf2_headD (s : LC) : (splitCrlf2 s).headD [] = beforeCrlf2 s :=
  splitCrlf2Fuel_headD s.length s le_rfl

lemma splitCrlf2_drop1 (s : LC) : ((splitCrlf2 s).drop 1).headD [] =
    if hasCrlf2 s then beforeCrlf2 (afterCrlf2 s) else [] :=
  splitCrlf2Fuel_drop1 s.length s le_rfl

/-- Normal form of `parse_request` in terms of the structural text
decomposition functions. -/
lemma parse_request_char (s : LC) :
    parse_request s =
      if beforeCrlf2 s = [] then none
      else
        if (splitWs (requestLineOf s)).headD [] = [] then none
        else
          some { method := (splitWs (requestLineOf s)).headD [],
                 path := ((splitWs (requestLineOf s)).drop 1).headD [],
                 headers := (rustLines (beforeCrlf2 s)).drop 1,
                 body := if hasCrlf2 s then beforeCrlf2 (afterCrlf2 s) else [],
                 cookie := ((rustLines (beforeCrlf2 s)).drop 1).find?
                     (fun h => listStartsWith cookieLit h) |>.bind
                   (fun h => ((splitOnChar '=' h).get? 1).map rustTrim) } := by
  simp only [parse_request, requestLineOf]
  rw [splitCrlf2_headD, splitCrlf2_drop1]

/-! ### Tokens, cookie segments and header maps -/

lemma splitWsAux_mem_ne_nil : ∀ s acc t : LC, t ∈ splitWsAux acc s → t ≠ [] := by
  intro s
  induction s with
  | nil =>
    intro acc t h
    simp only [splitWsAux] at h
    split at h
    · simp at h
    · rename_i hacc
      simp only [List.mem_singleton] at h
      subst h
      simpa using hacc
  | cons c rest ih =>
    intro acc t h
    simp only [splitWsAux] at h
    split at h
    · split at h
      · exact ih [] t h
      · rename_i hacc
        simp only [List.mem_cons] at h
        cases h with
        | inl h => subst h; simpa using hacc
        | inr h => exact ih [] t h
    · exact ih (c :: acc) t h

lemma splitWs_headD_eq_nil_iff : ∀ l : LC, ((splitWs l).headD [] = [] ↔ splitWs l = []) := by
  intro l
  cases h : splitWs l with
  | nil => simp
  | cons t ts =>
    simp only [List.headD_cons]
    constructor
    · intro ht
      have hmem : t ∈ splitWs l := by rw [h]; exact List.mem_cons_self t ts
      exact absurd ht (splitWsAux_mem_ne_nil l [] t hmem)
    · intro hc
      simp [h] at hc

lemma splitOnCharAux_head : ∀ (sep : Char) (s acc : LC),
    (splitOnCharAux sep acc s).head? = some (acc.reverse ++ beforeChar sep s) := by
  intro sep s
  induction s with
  | nil => intro acc; simp [splitOnCharAux, beforeChar]
  | cons c rest ih =>
    intro acc
    by_cases hc : c = sep
    · simp [splitOnCharAux, beforeChar, if_pos hc]
    · simp only [splitOnCharAux, beforeChar, if_neg hc]
      rw [ih (c :: acc)]
      simp

lemma splitOnCharAux_get1 : ∀ (sep : Char) (s acc : LC),
    (splitOnCharAux sep acc s).get? 1 =
      if containsChar sep s then some (beforeChar sep (afterChar sep s)) else none := by
  intro sep s
  induction s with
  | nil => intro acc; simp [splitOnCharAux, containsChar]
  | cons c rest ih =>
    intro acc
    by_cases hc : c = sep
    · simp only [splitOnCharAux, containsChar, afterChar, if_pos hc]
      rw [List.get?_cons_succ, List.get?_zero, splitOnCharAux_head]
      simp
    · simp only [splitOnCharAux, containsChar, afterChar, if_neg hc]
      exact ih (c :: acc)

lemma splitOnChar_get1 (sep : Char) (s : LC) :
    (splitOnChar sep s).get? 1 =
      if containsChar sep s then some (beforeChar sep (afterChar sep s)) else none :=
  splitOnCharAux_get1 sep s []

lemma get1_none_drop1 : ∀ l : List LC, l.get? 1 = none → (l.drop 1).headD [] = [] := by
  intro l h
  cases l with
  | nil => rfl
  | cons a t =>
    cases t with
    | nil => rfl
    | cons b t2 => simp at h

lemma headerLookup_insertHeader : ∀ (hs : List (LC × LC)) (k v : LC),
    headerLookup (insertHeader hs k v) k = some v := by
  intro hs k v
  induction hs with
  | nil => simp [insertHeader, headerLookup]
  | cons p rest ih =>
    simp only [insertHeader]
    split
    · simp [headerLookup]
    · rename_i hne
      simp only [headerLookup]
      rw [if_neg hne]
      exact ih

/-! ### Claims -/

/-- C1, counterexample: the claim says the body is the entire raw text after
the first `\r\n\r\n`, including text after a second occurrence.  On the
input `GET / HTTP/1.1\r\n\r\nB\r\n\r\nC` the parser returns body `B`,
while the text after the first marker is `B\r\n\r\nC`. -/
theorem C1_counterexample :
    (parse_request ("GET / HTTP/1.1\r\n\r\nB\r\n\r\nC".data)).map HttpRequest.body
        = some ("B".data) ∧
    afterCrlf2 ("GET / HTTP/1.1\r\n\r\nB\r\n\r\nC".data) = "B\r\n\r\nC".data ∧
    ("B".data : LC) ≠ "B\r\n\r\nC".data := by decide

/-- C1 (amended): for every input containing `\r\n\r\n`, a successful
`parse_request` returns a body equal to the text strictly between the first
marker and the next occurrence of the marker (the whole remaining text only
when the marker occurs once); text after a second marker is dropped. -/
theorem C1_amended : ∀ (s : LC) (req : HttpRequest), hasCrlf2 s = true →
    parse_request s = some req → req.body = beforeCrlf2 (afterCrlf2 s) := by
  intro s req hhas hp
  rw [parse_request_char] at hp
  by_cases h1 : beforeCrlf2 s = []
  · rw [if_pos h1] at hp; simp at hp
  · rw [if_neg h1] at hp
    by_cases h2 : (splitWs (requestLineOf s)).headD [] = []
    · rw [if_pos h2] at hp; simp at hp
    · rw [if_neg h2, if_pos hhas] at hp
      simp only [Option.some.injEq] at hp
      subst hp
      rfl

/-- C1 witness: a concrete run of the amended claim. -/
theorem C1_amended_witness :
    (HttpRequest.mk ("POST".data) ("/x".data) [] ("hello".data) none).body
      = beforeCrlf2 (afterCrlf2 ("POST /x HTTP/1.1\r\n\r\nhello".data)) :=
  C1_amended ("POST /x HTTP/1.1\r\n\r\nhello".data)
    { method := "POST".data, path := "/x".data, headers := [],
      body := "hello".data, cookie := none } (by decide) (by decide)

/-- C2, counterexample: the claim says every input without `\r\n\r\n`
parses to `None`, but `GET / HTTP/1.1` (no marker) parses successfully:
the whole text becomes the header section and the body is empty. -/
theorem C2_counterexample :
    hasCrlf2 ("GET / HTTP/1.1".data) = false ∧
    parse_request ("GET / HTTP/1.1".data)
      = some { method := "GET".data, path := "/".data, headers := [],
               body := [], cookie := none } := by decide

/-- C2 (amended): an input whose text contains no `\r\n\r\n` is treated as
all header section with an empty body; it parses to `None` exactly when the
text is empty or its first line contains no whitespace-separated token. -/
theorem C2_amended : ∀ s : LC, hasCrlf2 s = false →
    ((parse_request s = none ↔ (s = [] ∨ splitWs (requestLineOf s) = [])) ∧
     ∀ req : HttpRequest, parse_request s = some req → req.body = []) := by
  intro s hhas
  have hb : beforeCrlf2 s = s := beforeCrlf2_of_not_has s hhas
  constructor
  · rw [parse_request_char, hb]
    by_cases h1 : s = []
    · simp [h1]
    · rw [if_neg h1]
      by_cases h2 : (splitWs (requestLineOf s)).headD [] = []
      · rw [if_pos h2]
        simp [h1, (splitWs_headD_eq_nil_iff _).mp h2]
      · rw [if_neg h2]
        constructor
        · intro hc; simp at hc
        · intro hor
          rcases hor with h | h
          · exact absurd h h1
          · exact absurd ((splitWs_headD_eq_nil_iff _).mpr h) h2
  · intro req hp
    rw [parse_request_char] at hp
    by_cases h1 : beforeCrlf2 s = []
    · rw [if_pos h1] at hp; simp at hp
    · rw [if_neg h1] at hp
      by_cases h2 : (splitWs (requestLineOf s)).headD [] = []
      · rw [if_pos h2] at hp; simp at hp
      · rw [if_neg h2, if_neg (by simp [hhas])] at hp
        simp only [Option.some.injEq] at hp
        subst hp
        rfl

/-- C2 witness: a concrete run of the amended claim. -/
theorem C2_amended_witness :
    hasCrlf2 ("GET / HTTP/1.1".data) = false ∧
    (parse_request ("GET / HTTP/1.1".data) = none ↔
      (("GET / HTTP/1.1".data : LC) = [] ∨
        splitWs (requestLineOf ("GET / HTTP/1.1".data)) = [])) :=
  ⟨by decide, (C2_amended ("GET / HTTP/1.1".data) (by decide)).1⟩

/-- C3, counterexample: the claim says the cookie is the raw value after
the first `=` of the matching header line, so that `Cookie: sessionId=a=b`
yields `a=b`.  The code takes `split('=').nth(1)`, so that line yields the
segment between the first and second `=`, namely `a`. -/
theorem C3_counterexample :
    (parse_request ("GET / HTTP/1.1\r\nCookie: sessionId=a=b\r\n\r\n".data)).map
        HttpRequest.cookie = some (some ("a".data)) ∧
    ("a".data : LC) ≠ "a=b".data := by decide

/-- C3 (amended): the session cookie is taken from the first header line
beginning with the token `Cookie`: if that line contains an `=`, the cookie
is the text between the first and the second `=` (or to the end of the
line), trimmed; a `Cookie` line without `=` and absence of a matching line
both yield no cookie, never a failure. -/
theorem C3_amended : ∀ (s : LC) (req : HttpRequest), parse_request s = some req →
    req.cookie =
      match req.headers.find? (fun h => listStartsWith cookieLit h) with
      | none => none
      | some h =>
        if containsChar '=' h then
          some (rustTrim (beforeChar '=' (afterChar '=' h)))
        else none := by
  intro s req hp
  rw [parse_request_char] at hp
  by_cases h1 : beforeCrlf2 s = []
  · rw [if_pos h1] at hp; simp at hp
  · rw [if_neg h1] at hp
    by_cases h2 : (splitWs (requestLineOf s)).headD [] = []
    · rw [if_pos h2] at hp; simp at hp
    · rw [if_neg h2] at hp
      simp only [Option.some.injEq] at hp
      subst hp
      dsimp only
      cases hf : ((rustLines (beforeCrlf2 s)).drop 1).find?
          (fun h => listStartsWith cookieLit h) with
      | none => simp [hf]
      | some h =>
        simp only [hf, Option.some_bind]
        rw [splitOnChar_get1]
        split
        · simp
        · simp

/-- C3 witness: a concrete run of the amended claim. -/
theorem C3_amended_witness :
    (HttpRequest.mk ("GET".data) ("/".data) [("Cookie: sid=1".data)] []
        (some ("1".data))).cookie
      = match [("Cookie: sid=1".data)].find? (fun h => listStartsWith cookieLit h) with
        | none => none
        | some h =>
          if containsChar '=' h then
            some (rustTrim (beforeChar '=' (afterChar '=' h)))
          else none :=
  C3_amended ("GET / HTTP/1.1\r\nCookie: sid=1\r\n\r\n".data)
    { method := "GET".data, path := "/".data, headers := [("Cookie: sid=1".data)],
      body := [], cookie := some ("1".data) } (by decide)

/-- C4: for every request that parses, `handle` completes with the resolved
session id and a response whose `Set-Cookie` header is
`sessionId=<id>; Path=/`, for every session-resolution function, every JSON
decoder and every set of route handlers (in particular also when the
request already carried a known session id). -/
theorem C4_set_cookie : ∀ (J : Type) (resolve : HttpRequest → LC)
    (fromStr : LC → Option J) (H : Handlers J) (input : LC) (req : HttpRequest),
    parse_request input = some req →
    ∃ resp : Response,
      handle resolve fromStr H input = ConnOutcome.completed (resolve req) resp ∧
      headerLookup resp.headers scKey = some (scVal (resolve req)) := by
  intro J resolve fromStr H input req hp
  refine ⟨stampSession (resolve req) (dispatch H req (jsonBodyOf fromStr req)), ?_, ?_⟩
  · simp [handle, hp]
  · simp [stampSession, headerLookup_insertHeader]

/-- C4 witness: a concrete run, with a request that carries the known
session id `1234` being re-stamped with the same id. -/
theorem C4_witness :
    ∃ resp : Response,
      handle (fun _ => "1234".data) (fun _ => (none : Option Unit)) tagHandlers
          ("GET / HTTP/1.1\r\nCookie: sessionId=1234\r\n\r\n".data)
        = ConnOutcome.completed ("1234".data) resp ∧
      headerLookup resp.headers scKey = some (scVal ("1234".data)) :=
  C4_set_cookie Unit (fun _ => "1234".data) (fun _ => none) tagHandlers
    ("GET / HTTP/1.1\r\nCookie: sessionId=1234\r\n\r\n".data)
    { method := "GET".data, path := "/".data,
      headers := [("Cookie: sessionId=1234".data)],
      body := [], cookie := some ("1234".data) } (by decide)

/-- C5: for every input with a non-empty header section, `parse_request`
fails exactly when the first whitespace-separated token of the request line
is empty; when a method token exists the parse succeeds, and when there is
no second token the path is the empty string. -/
theorem C5_method_token : ∀ s : LC, beforeCrlf2 s ≠ [] →
    ((parse_request s = none ↔ (splitWs (requestLineOf s)).headD [] = []) ∧
     ((splitWs (requestLineOf s)).headD [] ≠ [] →
        ∃ req : HttpRequest, parse_request s = some req) ∧
     (∀ req : HttpRequest, parse_request s = some req →
        (splitWs (requestLineOf s)).get? 1 = none → req.path = [])) := by
  intro s hne
  refine ⟨?_, ?_, ?_⟩
  · rw [parse_request_char, if_neg hne]
    by_cases h2 : (splitWs (requestLineOf s)).headD [] = []
    · rw [if_pos h2]; simpa using h2
    · rw [if_neg h2]; simpa using h2
  · intro hm
    rw [parse_request_char, if_neg hne, if_neg hm]
    exact ⟨_, rfl⟩
  · intro req hp hg1
    rw [parse_request_char, if_neg hne] at hp
    by_cases h2 : (splitWs (requestLineOf s)).headD [] = []
    · rw [if_pos h2] at hp; simp at hp
    · rw [if_neg h2] at hp
      simp only [Option.some.injEq] at hp
      subst hp
      exact get1_none_drop1 _ hg1

/-- C5 witness: `GET\r\n\r\n` has a method but no second token and parses
successfully (with empty path, per the theorem's last conjunct). -/
theorem C5_witness :
    beforeCrlf2 ("GET\r\n\r\n".data) ≠ [] ∧
    (∃ req : HttpRequest, parse_request ("GET\r\n\r\n".data) = some req) :=
  ⟨by decide, (C5_method_token ("GET\r\n\r\n".data) (by decide)).2.1 (by decide)⟩

/-- C6: a read of zero bytes (empty text) fails to parse, and any input
whose header section (the text before the first `\r\n\r\n`) is empty fails
to parse; `parse_request` is a total function, so neither case panics. -/
theorem C6_empty_header : parse_request ([] : LC) = none ∧
    ∀ s : LC, beforeCrlf2 s = [] → parse_request s = none := by
  refine ⟨by decide, ?_⟩
  intro s h
  rw [parse_request_char, if_pos h]

/-- C6 witness: an input that starts with the blank-line marker has an
empty header section and fails to parse. -/
theorem C6_witness :
    beforeCrlf2 ("\r\n\r\nGET / HTTP/1.1".data) = [] ∧
    parse_request ("\r\n\r\nGET / HTTP/1.1".data) = none :=
  ⟨by decide, C6_empty_header.2 ("\r\n\r\nGET / HTTP/1.1".data) (by decide)⟩

/-- C7: any method other than exactly GET/POST/PUT/DELETE/PATCH dispatches
to the method-not-allowed handler regardless of path; the five known
methods dispatch to their handlers with the parsed path, POST/PUT/PATCH
also receiving the optional decoded JSON body and GET/DELETE receiving no
body. -/
theorem C7_routing : ∀ (J : Type) (H : Handlers J) (req : HttpRequest) (b : Option J),
    ((req.method ≠ "GET".data ∧ req.method ≠ "POST".data ∧ req.method ≠ "PUT".data ∧
      req.method ≠ "DELETE".data ∧ req.method ≠ "PATCH".data) →
        dispatch H req b = H.hMethodNotAllowed) ∧
    (req.method = "GET".data → dispatch H req b = H.hGet req.path) ∧
    (req.method = "POST".data → dispatch H req b = H.hPost req.path b) ∧
    (req.method = "PUT".data → dispatch H req b = H.hPut req.path b) ∧
    (req.method = "DELETE".data → dispatch H req b = H.hDelete req.path) ∧
    (req.method = "PATCH".data → dispatch H req b = H.hPatch req.path b) := by
  intro J H req b
  refine ⟨?_, ?_, ?_, ?_, ?_, ?_⟩
  · intro h
    obtain ⟨h1, h2, h3, h4, h5⟩ := h
    simp only [dispatch]
    rw [if_neg h1, if_neg h2, if_neg h3, if_neg h4, if_neg h5]
  · intro h
    simp only [dispatch]
    rw [if_pos h]
  · intro h
    simp [dispatch, h]
  · intro h
    simp [dispatch, h]
  · intro h
    simp [dispatch, h]
  · intro h
    simp [dispatch, h]

/-- C7 witness: method `TRACE` with an arbitrary path dispatches to the
method-not-allowed handler. -/
theorem C7_witness :
    dispatch tagHandlers
        { method := "TRACE".data, path := "/anything".data, headers := [],
          body := [], cookie := none } (none : Option Unit)
      = tagHandlers.hMethodNotAllowed :=
  (C7_routing Unit tagHandlers
    { method := "TRACE".data, path := "/anything".data, headers := [],
      body := [], cookie := none } none).1 (by decide)

/-- C8: for every parsed request, a non-empty body whose JSON decode fails
is passed to the method handler as `None` and the request still completes;
an empty body is passed as `None` for every decoder (the decoder is never
consulted). -/
theorem C8_body_decode : ∀ (J : Type) (resolve : HttpRequest → LC)
    (fromStr : LC → Option J) (H : Handlers J) (input : LC) (req : HttpRequest),
    parse_request input = some req →
    ((req.body ≠ [] → fromStr req.body = none →
        handle resolve fromStr H input
          = ConnOutcome.completed (resolve req)
              (stampSession (resolve req) (dispatch H req none))) ∧
     (req.body = [] →
        handle resolve fromStr H input
          = ConnOutcome.completed (resolve req)
              (stampSession (resolve req) (dispatch H req none)))) := by
  intro J resolve fromStr H input req hp
  constructor
  · intro hne hdec
    have hj : jsonBodyOf fromStr req = none := by
      rw [jsonBodyOf, if_pos hne, hdec]
    simp [handle, hp, hj]
  · intro hemp
    have hj : jsonBodyOf fromStr req = none := by
      rw [jsonBodyOf, if_neg (by simp [hemp])]
    simp [handle, hp, hj]

/-- C8 witness: `POST / HTTP/1.1\r\n\r\noops` has a non-empty body that
fails to decode, and is dispatched with body `None`. -/
theorem C8_witness :
    handle (fun _ => "s1".data) (fun _ => (none : Option Unit)) tagHandlers
        ("POST / HTTP/1.1\r\n\r\noops".data)
      = ConnOutcome.completed ("s1".data)
          (stampSession ("s1".data)
            (dispatch tagHandlers
              { method := "POST".data, path := "/".data, headers := [],
                body := "oops".data, cookie := none } none)) :=
  (C8_body_decode Unit (fun _ => "s1".data) (fun _ => none) tagHandlers
      ("POST / HTTP/1.1\r\n\r\noops".data)
      { method := "POST".data, path := "/".data, headers := [],
        body := "oops".data, cookie := none } (by decide)).1 (by decide) rfl

/-- C9: when `parse_request` fails, `handle` aborts the connection with no
further work: no session is resolved, no handler is dispatched and no
response is produced, for every session resolver, decoder and handler set. -/
theorem C9_abort : ∀ (J : Type) (resolve : HttpRequest → LC)
    (fromStr : LC → Option J) (H : Handlers J) (input : LC),
    parse_request input = none →
    handle resolve fromStr H input = ConnOutcome.aborted := by
  intro J resolve fromStr H input hp
  simp [handle, hp]

/-- C9 witness: an empty read aborts the connection. -/
theorem C9_witness :
    parse_request ([] : LC) = none ∧
    handle (fun _ => []) (fun _ => (none : Option Unit)) tagHandlers []
      = ConnOutcome.aborted :=
  ⟨by decide, C9_abort Unit (fun _ => []) (fun _ => none) tagHandlers [] (by decide)⟩

/-- C10: `parse_request` is total over the read buffer (it returns `some`
or `none` on every decoded text, for every total lossy decoder and read
length up to the 1024-byte buffer); a `Cookie` header containing no `=`
yields no cookie; a request line with fewer than two tokens yields an
empty path. -/
theorem C10_total :
    (∀ (decode : List Nat → LC) (buf : List Nat) (n : Nat),
        (∃ r : HttpRequest, parse_request_bytes decode buf n = some r) ∨
        parse_request_bytes decode buf n = none) ∧
    (∀ (s : LC) (req : HttpRequest) (h : LC), parse_request s = some req →
        req.headers.find? (fun l => listStartsWith cookieLit l) = some h →
        containsChar '=' h = false → req.cookie = none) ∧
    (∀ (s : LC) (req : HttpRequest), parse_request s = some req →
        (splitWs (requestLineOf s)).get? 1 = none → req.path = []) := by
  refine ⟨?_, ?_, ?_⟩
  · intro decode buf n
    cases h : parse_request_bytes decode buf n with
    | none => exact Or.inr rfl
    | some r => exact Or.inl ⟨r, rfl⟩
  · intro s req h hp hf hnc
    rw [parse_request_char] at hp
    by_cases h1 : beforeCrlf2 s = []
    · rw [if_pos h1] at hp; simp at hp
    · rw [if_neg h1] at hp
      by_cases h2 : (splitWs (requestLineOf s)).headD [] = []
      · rw [if_pos h2] at hp; simp at hp
      · rw [if_neg h2] at hp
        simp only [Option.some.injEq] at hp
        subst hp
        dsimp only at hf ⊢
        rw [hf, Option.some_bind, splitOnChar_get1, if_neg (by simp [hnc])]
        rfl
  · intro s req hp hg1
    rw [parse_request_char] at hp
    by_cases h1 : beforeCrlf2 s = []
    · rw [if_pos h1] at hp; simp at hp
    · rw [if_neg h1] at hp
      by_cases h2 : (splitWs (requestLineOf s)).headD [] = []
      · rw [if_pos h2] at hp; simp at hp
      · rw [if_neg h2] at hp
        simp only [Option.some.injEq] at hp
        subst hp
        exact get1_none_drop1 _ hg1

/-- C10 witness: a `Cookie` header line without `=` yields no cookie. -/
theorem C10_witness :
    (HttpRequest.mk ("GET".data) ("/".data) [("CookieX".data)] [] none).cookie = none :=
  C10_total.2.1 ("GET / HTTP/1.1\r\nCookieX\r\n\r\n".data)
    { method := "GET".data, path := "/".data, headers := [("CookieX".data)],
      body := [], cookie := none }
    ("CookieX".data) (by decide) (by decide) (by decide)
